import Mathlib

/-!
Verification of `src/recurrenceConverters.ts`.

Strings are modelled as `List Char`.  JavaScript `Date` values are modelled as
milliseconds since the Unix epoch (`Int`); an invalid date ("NaN time value")
is `none` in `Option Int`.  The host environment's local timezone is modelled
as a fixed offset `tz` in minutes (local time = UTC + tz minutes; no DST).
ECMAScript's TimeClip is modelled where the program can newly overflow the
time range: `setHours` yields an invalid date when its result leaves
±8640000000000000 ms.  The instant parameters of the formatters range over
all integers, a superset of the valid time values a caller's `Date` can
hold.  Thrown `Error`s are modelled with `Except String`.
-/

set_option maxRecDepth 8000

deriving instance DecidableEq for Except

namespace SchedulingRender

/-- Character class of the JavaScript regex `\s` (also the set stripped by
`String.prototype.trim`): ECMAScript WhiteSpace plus LineTerminator. -/
def jsWhitespace (c : Char) : Bool :=
  c = ' ' || c = '\t' || c = '\n' || c = '\r' || c = '\x0b' || c = '\x0c' ||
  c = ' ' || c = ' ' || c = ' ' || c = ' ' || c = ' ' ||
  c = ' ' || c = ' ' || c = ' ' || c = ' ' || c = ' ' ||
  c = ' ' || c = ' ' || c = ' ' || c = ' ' || c = ' ' ||
  c = ' ' || c = ' ' || c = '　' || c = '﻿'

/-- Character class of the JavaScript regex `\d` (ASCII decimal digits). -/
def isDig (c : Char) : Bool :=
  c = '0' || c = '1' || c = '2' || c = '3' || c = '4' ||
  c = '5' || c = '6' || c = '7' || c = '8' || c = '9'

/-- Numeric value of an ASCII digit character (0 for non-digits). -/
def digToNat (c : Char) : Nat :=
  if c = '1' then 1 else if c = '2' then 2 else if c = '3' then 3 else
  if c = '4' then 4 else if c = '5' then 5 else if c = '6' then 6 else
  if c = '7' then 7 else if c = '8' then 8 else if c = '9' then 9 else 0

/-- Value of a digit string read left to right, as JavaScript
`parseInt(s, 10)` accumulates the digits it finds. -/
def digitsVal (ds : List Char) : Nat := ds.foldl (fun a c => a * 10 + digToNat c) 0

/-- ASCII lower-casing as performed by `String.prototype.toLowerCase` on the
characters that can appear here (code points outside A–Z are unchanged). -/
def jsToLower (c : Char) : Char :=
  if 65 ≤ c.toNat ∧ c.toNat ≤ 90 then Char.ofNat (c.toNat + 32) else c

/-- Map of `String.prototype.toLowerCase` over a string. -/
def toLowerList (s : List Char) : List Char := s.map jsToLower

/-- Model of `String.prototype.trim`: drop `jsWhitespace` characters from both
ends. -/
def jsTrim (s : List Char) : List Char :=
  ((s.dropWhile jsWhitespace).reverse.dropWhile jsWhitespace).reverse

/-- Whether the two-character sequence `a b` occurs as a substring, modelling
`String.prototype.includes` for the two-character needles used in the source
("am", "pm"). -/
def hasSub2 (a b : Char) : List Char → Bool
  | x :: y :: rest => (x = a && y = b) || hasSub2 a b (y :: rest)
  | _ => false

/-- Model of `parseInt(s, 10)`: skip leading whitespace, read an optional
sign and then a maximal run of decimal digits; `none` is NaN (no digits). -/
def jsParseInt (s : List Char) : Option Int :=
  let s1 := s.dropWhile jsWhitespace
  match s1 with
  | [] => none
  | c :: rest =>
    if c = '-' then
      let ds := rest.takeWhile isDig
      if ds.isEmpty then none else some (-(digitsVal ds : Int))
    else if c = '+' then
      let ds := rest.takeWhile isDig
      if ds.isEmpty then none else some ((digitsVal ds : Int))
    else
      let ds := (c :: rest).takeWhile isDig
      if ds.isEmpty then none else some ((digitsVal ds : Int))

/-- Model of `String.prototype.split(':')`. -/
def splitColon : List Char → List (List Char)
  | [] => [[]]
  | c :: rest =>
    if c = ':' then [] :: splitColon rest
    else
      match splitColon rest with
      | [] => [[c]]
      | h :: t => (c :: h) :: t

/-- Model of `timeStr.replace(/\s?(am|pm)/, '')` applied to an already
lower-cased string: remove the leftmost occurrence of an optional whitespace
character followed by `am` or `pm` (the `\s?` is greedy at each position). -/
def stripMarker : List Char → List Char
  | w :: a :: m :: rest =>
    if jsWhitespace w ∧ (a = 'a' ∨ a = 'p') ∧ m = 'm' then rest
    else if (w = 'a' ∨ w = 'p') ∧ a = 'm' then m :: rest
    else w :: stripMarker (a :: m :: rest)
  | [a, m] => if (a = 'a' ∨ a = 'p') ∧ m = 'm' then [] else a :: stripMarker [m]
  | s => s

/-- Result record of the inner `parseTime` helper: the `{ hours, minutes }`
object.  `none` models a NaN field. -/
structure TimeHM where
  hours : Option Int
  minutes : Option Int
deriving DecidableEq, Repr

/-- The `parts[1] ? parseInt(parts[1], 10) : 0` step shared by both branches
of `parseTime` (an absent or empty second part is falsy and yields 0). -/
def minutesFromParts (parts : List (List Char)) : Option Int :=
  match parts[1]? with
  | some p => if p.isEmpty then some 0 else jsParseInt p
  | none => some 0

/-- Model of the inner arrow function `parseTime` of
`parseRecurrenceString` (src/recurrenceConverters.ts lines 39–59). -/
def parseTime (timeStr0 : List Char) : TimeHM :=
  let t1 := toLowerList (jsTrim timeStr0)
  if hasSub2 'a' 'm' t1 || hasSub2 'p' 'm' t1 then
    let isPm := hasSub2 'p' 'm' t1
    let t2 := stripMarker t1
    let parts := splitColon t2
    let hours0 := jsParseInt (parts.headD [])
    let minutes := minutesFromParts parts
    let hoursA :=
      if isPm && (match hours0 with | some v => decide (v < 12) | none => false) then
        hours0.map (· + 12)
      else hours0
    let hoursB := if (!isPm) && decide (hoursA = some 12) then some 0 else hoursA
    ⟨hoursB, minutes⟩
  else
    let parts := splitColon t1
    ⟨jsParseInt (parts.headD []), minutesFromParts parts⟩

/-- The supported day-letter alphabet (regex class `[MTWRFSU]`). -/
def isDayLetter (c : Char) : Bool :=
  c = 'M' || c = 'T' || c = 'W' || c = 'R' || c = 'F' || c = 'S' || c = 'U'

/-- The `dayMap` lookup table (src/recurrenceConverters.ts lines 2–10);
`none` models an absent key (`undefined`, falsy). -/
def dayMapFn (c : Char) : Option (List Char) :=
  if c = 'M' then some ['M', 'O'] else
  if c = 'T' then some ['T', 'U'] else
  if c = 'W' then some ['W', 'E'] else
  if c = 'R' then some ['T', 'H'] else
  if c = 'F' then some ['F', 'R'] else
  if c = 'S' then some ['S', 'A'] else
  if c = 'U' then some ['S', 'U'] else none

/-- Total version of the day table, used only to state theorems. -/
def dayCode (c : Char) : List Char := (dayMapFn c).getD []

/-- Model of `recurrence.match(/^([MTWRFSU]+)\s/)`, returning capture
group 1.  The greedy `+` with backtracking is equivalent to the maximal run:
a shorter run would leave a day letter under the `\s`, and no day letter is
whitespace, so only the maximal run can be followed by a `\s` match. -/
def dayScan (s : List Char) : Option (List Char) :=
  let run := s.takeWhile isDayLetter
  match s.drop run.length with
  | c :: _ => if run.isEmpty then none else if jsWhitespace c then some run else none
  | [] => none

/-- The per-letter translation loop with its defensive table check
(`daysStr.split('').map(...)`, src/recurrenceConverters.ts lines 26–31). -/
def mapDays : List Char → Except String (List (List Char))
  | [] => Except.ok []
  | c :: rest =>
    match dayMapFn c with
    | none => Except.error ("Unsupported day letter: ".push c)
    | some code =>
      match mapDays rest with
      | Except.error e => Except.error e
      | Except.ok t => Except.ok (code :: t)

/-- List concatenation of mapped results (used to enumerate regex
alternatives in backtracking preference order). -/
def concatMap (f : α → List β) : List α → List β
  | [] => []
  | x :: xs => f x ++ concatMap f xs

/-- Alternatives for `\d{1,2}` at the head of `s`, greedy first; each entry
is (consumed characters, remaining input). -/
def digitsAlts : List Char → List (List Char × List Char)
  | c1 :: c2 :: rest =>
    if isDig c1 then
      if isDig c2 then [([c1, c2], rest), ([c1], c2 :: rest)]
      else [([c1], c2 :: rest)]
    else []
  | [c1] => if isDig c1 then [([c1], [])] else []
  | [] => []

/-- Alternatives for `(?::\d{2})?`, greedy first. -/
def colonAlts (s : List Char) : List (List Char × List Char) :=
  (match s with
   | ':' :: a :: b :: rest => if isDig a && isDig b then [([':', a, b], rest)] else []
   | _ => []) ++ [([], s)]

/-- Alternatives for `\s?`, greedy first. -/
def wsAlts (s : List Char) : List (List Char × List Char) :=
  (match s with
   | c :: rest => if jsWhitespace c then [([c], rest)] else []
   | [] => []) ++ [([], s)]

/-- First letter of a case-insensitive `am` marker. -/
def isMarkA (c : Char) : Bool := c = 'a' || c = 'A'

/-- First letter of a case-insensitive `pm` marker. -/
def isMarkP (c : Char) : Bool := c = 'p' || c = 'P'

/-- Second letter of a case-insensitive `am`/`pm` marker. -/
def isMarkM (c : Char) : Bool := c = 'm' || c = 'M'

/-- Alternatives for `(?:am|pm)?` under the `i` flag: `am` first, then `pm`,
then the empty match. -/
def markerAlts (s : List Char) : List (List Char × List Char) :=
  (match s with
   | a :: m :: rest =>
     (if isMarkA a && isMarkM m then [([a, m], rest)] else []) ++
     (if isMarkP a && isMarkM m then [([a, m], rest)] else [])
   | _ => []) ++ [([], s)]

/-- All ways one time token `\d{1,2}(?::\d{2})?\s?(?:am|pm)?` can match at
the head of `s`, in backtracking preference order (the later optional parts
vary fastest, which is the depth-first order of the backtracking engine). -/
def tokenAlts (s : List Char) : List (List Char × List Char) :=
  concatMap
    (fun p1 =>
      concatMap
        (fun p2 =>
          concatMap
            (fun p3 =>
              (markerAlts p3.2).map (fun p4 => (p1.1 ++ p2.1 ++ p3.1 ++ p4.1, p4.2)))
            (wsAlts p2.2))
        (colonAlts p1.2))
    (digitsAlts s)

/-- The separator class `[-–]` (ASCII hyphen or en-dash). -/
def isDash (c : Char) : Bool := c = '-' || c = '–'

/-- Whether the whole time-range regex matches starting exactly here,
returning the two capture groups.  Group 2 is followed by nothing, so its
first (greedy) alternative wins; failures of the dash or of group 2
backtrack into later alternatives for group 1. -/
def matchAt (s : List Char) : Option (List Char × List Char) :=
  (tokenAlts s).findSome? fun p =>
    match p.2 with
    | c :: r2 =>
      if isDash c then
        match tokenAlts r2 with
        | [] => none
        | q :: _ => some (p.1, q.1)
      else none
    | [] => none

/-- Model of the unanchored search
`recurrence.match(/(\d{1,2}(?::\d{2})?\s?(?:am|pm)?)[-–](\d{1,2}(?::\d{2})?\s?(?:am|pm)?)/i)`:
the leftmost starting position wins. -/
def searchTimeMatch (s : List Char) : Option (List Char × List Char) :=
  match matchAt s with
  | some r => some r
  | none =>
    match s with
    | [] => none
    | _ :: rest => searchTimeMatch rest

/-- Parser output record (the `RecurrencePattern` interface). -/
structure RecurrencePattern where
  days : List (List Char)
  startTime : TimeHM
  endTime : TimeHM
deriving DecidableEq, Repr

/-- Model of `parseRecurrenceString` (src/recurrenceConverters.ts
lines 18–65). -/
def parseRecurrenceString (recurrence : List Char) : Except String RecurrencePattern :=
  match dayScan recurrence with
  | none => Except.error ("Invalid recurrence string: days not found")
  | some daysStr =>
    match mapDays daysStr with
    | Except.error e => Except.error e
    | Except.ok days =>
      match searchTimeMatch recurrence with
      | none => Except.error ("Invalid recurrence string: times not found")
      | some (t1, t2) => Except.ok ⟨days, parseTime t1, parseTime t2⟩

/-! ### Calendar arithmetic

The runtime's `Date` methods are modelled over milliseconds since the Unix
epoch.  `civilFromDays` decomposes a day number (days since 1970-01-01) into
the proleptic Gregorian date by the standard era decomposition: 400-year
eras of 146097 days starting 0000-03-01, then centuries, quadrennia, years,
then the March-based month formula.  Divisions are Euclidean (`Int./` is
`Int.ediv`), which is floor division for the positive divisors used here,
matching ECMAScript's `Math.floor`-based date decomposition. -/

/-- Days since the epoch for a proleptic Gregorian calendar date
(the inverse direction, used to build concrete test instants and to model
`Date.parse` / `Date.UTC` of the ISO strings appearing in the repository). -/
def daysFromCivil (y m d : Int) : Int :=
  let y1 := y - (if m ≤ 2 then 1 else 0)
  let era := y1 / 400
  let yoe := y1 - era * 400
  let mp := (m + 9) % 12
  let doy := (153 * mp + 2) / 5 + d - 1
  let doe := yoe * 365 + yoe / 4 - yoe / 100 + doy
  era * 146097 + doe - 719468

/-- Gregorian (year, month, day) of a day number (days since 1970-01-01). -/
def civilFromDays (z0 : Int) : Int × Int × Int :=
  let z := z0 + 719468
  let era := z / 146097
  let doe := z - era * 146097
  let cdiv := doe / 36524
  let c := if 3 ≤ cdiv then 3 else cdiv
  let dic := doe - c * 36524
  let qdiv := dic / 1461
  let q := if 24 ≤ qdiv then 24 else qdiv
  let diq := dic - q * 1461
  let ydiv := diq / 365
  let y := if 3 ≤ ydiv then 3 else ydiv
  let doy := diq - y * 365
  let yoe := c * 100 + q * 4 + y
  let mp := (5 * doy + 2) / 153
  let d := doy - (153 * mp + 2) / 5 + 1
  let m := if mp < 10 then mp + 3 else mp - 9
  (yoe + era * 400 + (if m ≤ 2 then 1 else 0), m, d)

/-- Model of `Date.prototype.getUTCFullYear`. -/
def getUTCFullYear (ms : Int) : Int := (civilFromDays (ms / 86400000)).1

/-- Model of `Date.prototype.getUTCMonth() + 1` (the source always adds 1 to
the 0-based month before printing). -/
def getUTCMonthPlus1 (ms : Int) : Int := (civilFromDays (ms / 86400000)).2.1

/-- Model of `Date.prototype.getUTCDate`. -/
def getUTCDate (ms : Int) : Int := (civilFromDays (ms / 86400000)).2.2

/-- Model of `Date.prototype.getUTCHours`. -/
def getUTCHours (ms : Int) : Int := (ms % 86400000) / 3600000

/-- Model of `Date.prototype.getUTCMinutes`. -/
def getUTCMinutes (ms : Int) : Int := ((ms % 86400000) / 60000) % 60

/-- Model of `Date.prototype.getUTCSeconds`. -/
def getUTCSeconds (ms : Int) : Int := ((ms % 86400000) / 1000) % 60

/-! ### Decimal rendering -/

/-- Decimal digit character of a value below 10 (0 for anything else). -/
def digitChar10 (n : Nat) : Char :=
  if n = 1 then '1' else if n = 2 then '2' else if n = 3 then '3' else
  if n = 4 then '4' else if n = 5 then '5' else if n = 6 then '6' else
  if n = 7 then '7' else if n = 8 then '8' else if n = 9 then '9' else '0'

/-- Fuel-driven accumulator loop producing the decimal digits of `n` in
front of `acc`; the fuel-exhausted arm is never reached when the fuel is at
least `n` (structural recursion keeps the function kernel-reducible). -/
def natDigitsAux : Nat → Nat → List Char → List Char
  | 0, n, acc => digitChar10 n :: acc
  | fuel + 1, n, acc =>
    if n < 10 then digitChar10 n :: acc
    else natDigitsAux fuel (n / 10) (digitChar10 (n % 10) :: acc)

/-- Decimal digits of a natural number, most significant first (the digits
`Number.prototype.toString` produces for a non-negative integer). -/
def natDigits (n : Nat) : List Char := natDigitsAux n n []

/-- Decimal rendering of an integer-valued JavaScript number
(`Number.prototype.toString` / `n.toString()` in the source). -/
def intToChars (i : Int) : List Char :=
  if i < 0 then '-' :: natDigits i.natAbs else natDigits i.toNat

/-- Model of `String.prototype.padStart(k, '0')`. -/
def padN (k : Nat) (s : List Char) : List Char := List.replicate (k - s.length) '0' ++ s

/-- The two-digit padder `pad` of `formatDateTo5545`
(`n.toString().padStart(2, '0')`). -/
def pad2 : List Char → List Char := padN 2

/-- Model of `Array.prototype.join(sep)`. -/
def joinWith (sep : List Char) : List (List Char) → List Char
  | [] => []
  | [x] => x
  | x :: y :: ys => x ++ sep ++ joinWith sep (y :: ys)

/-! ### The formatters -/

/-- Model of `formatDateTo5545` (src/recurrenceConverters.ts lines 68–80).
On an invalid date every `getUTC*` call returns NaN, `NaN.toString()` is
"NaN" and `"NaN".padStart(2, '0')` is "NaN", so the rendered text is the
fixed string below. -/
def formatDateTo5545 : Option Int → List Char
  | none => ("NaNNaNNaNTNaNNaNNaNZ").toList
  | some ms =>
    intToChars (getUTCFullYear ms) ++
    pad2 (intToChars (getUTCMonthPlus1 ms)) ++
    pad2 (intToChars (getUTCDate ms)) ++
    ['T'] ++
    pad2 (intToChars (getUTCHours ms)) ++
    pad2 (intToChars (getUTCMinutes ms)) ++
    pad2 (intToChars (getUTCSeconds ms)) ++
    ['Z']

/-- Model of `setTime` (src/recurrenceConverters.ts lines 83–87):
`newDate.setHours(hours, minutes, 0, 0)` keeps the local calendar date of
the instant (local time = UTC + `tz` minutes) and replaces the local clock
time; hours outside 0–23 roll over into adjacent days exactly as
ECMAScript's `MakeTime`/`MakeDate` arithmetic does.  A NaN hours or minutes
argument yields an invalid date, and ECMAScript's TimeClip turns a result
outside the representable range of ±8640000000000000 ms into an invalid
date as well. -/
def setTime (dateMs : Int) (tz : Int) (hours minutes : Option Int) : Option Int :=
  match hours, minutes with
  | some h, some m =>
    let lms := dateMs + tz * 60000
    let day := lms / 86400000
    let t := day * 86400000 + h * 3600000 + m * 60000 - tz * 60000
    if t < -8640000000000000 ∨ 8640000000000000 < t then none else some t
  | _, _ => none

/-- Model of `parseTo5545` (src/recurrenceConverters.ts lines 97–118).
`startMs`/`endMs` are the millisecond time values of the two `Date`
arguments and `tz` is the environment's fixed local-time offset. -/
def parseTo5545 (tz startMs endMs : Int) (recurrenceString : List Char) :
    Except String (List Char) :=
  match parseRecurrenceString recurrenceString with
  | Except.error e => Except.error e
  | Except.ok pat =>
    let dtStart := setTime startMs tz pat.startTime.hours pat.startTime.minutes
    let dtEnd := setTime startMs tz pat.endTime.hours pat.endTime.minutes
    let rrule := ("RRULE:FREQ=WEEKLY;BYDAY=").toList ++ joinWith [','] pat.days ++
      (";UNTIL=").toList ++ formatDateTo5545 (some endMs)
    Except.ok (joinWith ['\n']
      [("BEGIN:VEVENT").toList,
       ("DTSTART:").toList ++ formatDateTo5545 dtStart,
       ("DTEND:").toList ++ formatDateTo5545 dtEnd,
       rrule,
       ("END:VEVENT").toList])

/-- Year field of `Date.prototype.toISOString`: four zero-padded digits for
0–9999, otherwise the expanded six-digit form with an explicit sign. -/
def isoYearChars (y : Int) : List Char :=
  if 0 ≤ y ∧ y ≤ 9999 then padN 4 (natDigits y.toNat)
  else (if y < 0 then ['-'] else ['+']) ++ padN 6 (natDigits y.natAbs)

/-- Model of `Date.prototype.toISOString`; on an invalid date it throws
`RangeError("Invalid time value")`. -/
def toISOString : Option Int → Except String (List Char)
  | none => Except.error ("Invalid time value")
  | some ms =>
    Except.ok (isoYearChars (getUTCFullYear ms) ++ ['-'] ++
      pad2 (intToChars (getUTCMonthPlus1 ms)) ++ ['-'] ++
      pad2 (intToChars (getUTCDate ms)) ++ ['T'] ++
      pad2 (intToChars (getUTCHours ms)) ++ [':'] ++
      pad2 (intToChars (getUTCMinutes ms)) ++ [':'] ++
      pad2 (intToChars (getUTCSeconds ms)) ++ ['.'] ++
      padN 3 (intToChars (ms % 1000)) ++ ['Z'])

/-- The nested `recurrence` object of the RFC8984 output. -/
structure Recurrence8984 where
  frequency : List Char
  byDay : List (List Char)
  untilStr : List Char
deriving DecidableEq, Repr

/-- The object returned by `parseTo8984` (fields `dtstart`, `dtend`,
`recurrence`; `untilStr` models the `until` key). -/
structure Result8984 where
  dtstart : List Char
  dtend : List Char
  recurrence : Recurrence8984
deriving DecidableEq, Repr

/-- Model of `parseTo8984` (src/recurrenceConverters.ts lines 128–146).
The object literal evaluates `dtstart` first, then `dtend`, then
`recurrence.until`, so the first invalid date in that order throws. -/
def parseTo8984 (tz startMs endMs : Int) (recurrenceString : List Char) :
    Except String Result8984 :=
  match parseRecurrenceString recurrenceString with
  | Except.error e => Except.error e
  | Except.ok pat =>
    match toISOString (setTime startMs tz pat.startTime.hours pat.startTime.minutes),
          toISOString (setTime startMs tz pat.endTime.hours pat.endTime.minutes),
          toISOString (some endMs) with
    | Except.ok ds, Except.ok de, Except.ok u =>
      Except.ok ⟨ds, de, ⟨("WEEKLY").toList, pat.days, u⟩⟩
    | Except.error e, _, _ => Except.error e
    | _, Except.error e, _ => Except.error e
    | _, _, Except.error e => Except.error e

/-- Millisecond time value of a UTC civil date-time (models `Date.parse` of
the `...Z` ISO strings used by the repository's tests and examples). -/
def mkUtcMs (y m d hh mm ss : Int) : Int :=
  (daysFromCivil y m d * 86400 + hh * 3600 + mm * 60 + ss) * 1000

/-- Split on the newline character (to state line-structure properties of
the emitted iCalendar block). -/
def splitNl : List Char → List (List Char)
  | [] => [[]]
  | c :: rest =>
    if c = '\n' then [] :: splitNl rest
    else
      match splitNl rest with
      | [] => [[c]]
      | h :: t => (c :: h) :: t

/-! ### Shape of the captured time tokens -/

/-- Shape of the `\d{1,2}` part: one or two digit characters. -/
def IsDigits12 (ds : List Char) : Prop :=
  (∃ a, ds = [a] ∧ isDig a = true) ∨
  (∃ a b, ds = [a, b] ∧ isDig a = true ∧ isDig b = true)

/-- Shape of the `(?::\d{2})?` part. -/
def IsColonOpt (co : List Char) : Prop :=
  co = [] ∨ ∃ a b, co = [':', a, b] ∧ isDig a = true ∧ isDig b = true

/-- Shape of the `\s?` part. -/
def IsWsOpt (w : List Char) : Prop :=
  w = [] ∨ ∃ c, w = [c] ∧ jsWhitespace c = true

/-- Shape of the `(?:am|pm)?` part (case-insensitive). -/
def IsMarkOpt (mk : List Char) : Prop :=
  mk = [] ∨ ∃ a m, mk = [a, m] ∧ (isMarkA a = true ∨ isMarkP a = true) ∧ isMarkM m = true

/-- Shape of a whole captured time token. -/
def IsToken (t : List Char) : Prop :=
  ∃ ds co w mk, t = ds ++ co ++ w ++ mk ∧
    IsDigits12 ds ∧ IsColonOpt co ∧ IsWsOpt w ∧ IsMarkOpt mk

/-- Whether a thrown-or-returned computation returned (used to state that
the formatters fail exactly when the parser fails). -/
def isOkB : Except String α → Bool
  | Except.ok _ => true
  | Except.error _ => false

/-- Sanity check: the calendar decomposition agrees with known dates
(epoch day, leap and non-leap century years, a pre-epoch date). -/
theorem civilFromDays_sanity :
    civilFromDays 0 = (1970, 1, 1) ∧
    civilFromDays (daysFromCivil 2000 2 29) = (2000, 2, 29) ∧
    civilFromDays (daysFromCivil 1900 2 28) = (1900, 2, 28) ∧
    civilFromDays (daysFromCivil 1900 3 1) = (1900, 3, 1) ∧
    civilFromDays (daysFromCivil 2024 2 29) = (2024, 2, 29) ∧
    civilFromDays (daysFromCivil 2100 12 31) = (2100, 12, 31) ∧
    civilFromDays (daysFromCivil 1969 12 31) = (1969, 12, 31) ∧
    daysFromCivil 2025 3 10 = 20157 := by decide

/-- Claim C1: `parseTo5545` on period 2025-03-10T00:00:00Z to
2025-06-10T23:59:59Z and recurrence "TR 11am-12:15pm" produces exactly the
expected block: the RRULE line is
`RRULE:FREQ=WEEKLY;BYDAY=TU,TH;UNTIL=20250610T235959Z`, and the DTSTART and
DTEND lines carry times 11:00:00 and 12:15:00 on the calendar date resolved
by the local-time anchoring (2025-03-10 in a UTC environment, offset 0). -/
theorem claim_C1 :
    parseTo5545 0 (mkUtcMs 2025 3 10 0 0 0) (mkUtcMs 2025 6 10 23 59 59)
      (("TR 11am-12:15pm").toList) =
    Except.ok (("BEGIN:VEVENT\nDTSTART:20250310T110000Z\nDTEND:20250310T121500Z\nRRULE:FREQ=WEEKLY;BYDAY=TU,TH;UNTIL=20250610T235959Z\nEND:VEVENT").toList) := by
  decide

/-- Claim C2, counterexample: the block emitted on a successful parse has
five newline-separated lines, not six as the claim states. -/
theorem claim_C2_counterexample :
    parseTo5545 0 (mkUtcMs 2025 3 10 0 0 0) (mkUtcMs 2025 6 10 23 59 59)
      (("TR 11am-12:15pm").toList) =
    Except.ok (("BEGIN:VEVENT\nDTSTART:20250310T110000Z\nDTEND:20250310T121500Z\nRRULE:FREQ=WEEKLY;BYDAY=TU,TH;UNTIL=20250610T235959Z\nEND:VEVENT").toList) ∧
    (splitNl (("BEGIN:VEVENT\nDTSTART:20250310T110000Z\nDTEND:20250310T121500Z\nRRULE:FREQ=WEEKLY;BYDAY=TU,TH;UNTIL=20250610T235959Z\nEND:VEVENT").toList)).length = 5 ∧
    ¬ (splitNl (("BEGIN:VEVENT\nDTSTART:20250310T110000Z\nDTEND:20250310T121500Z\nRRULE:FREQ=WEEKLY;BYDAY=TU,TH;UNTIL=20250610T235959Z\nEND:VEVENT").toList)).length = 6 := by
  refine ⟨by decide, by decide, by decide⟩

/-- Claim C3, counterexample: the parser accepts "M 99:99-1" and returns a
start time with hour 99 and minute 99, outside the claimed ranges
[0,23] and [0,59]. -/
theorem claim_C3_counterexample :
    parseRecurrenceString (("M 99:99-1").toList) =
      Except.ok ⟨[['M', 'O']], ⟨some 99, some 99⟩, ⟨some 1, some 0⟩⟩ ∧
    ¬ ((99 : Int) ≤ 23) ∧ ¬ ((99 : Int) ≤ 59) := by
  refine ⟨by decide, by decide, by decide⟩

/-- Claim C4, counterexample: the formatter does not zero-pad the year to
four digits; a valid instant in year 500 renders as a fifteen-character
timestamp with a three-digit year. -/
theorem claim_C4_counterexample :
    formatDateTo5545 (some (mkUtcMs 500 1 1 0 0 0)) = ("5000101T000000Z").toList ∧
    ¬ (formatDateTo5545 (some (mkUtcMs 500 1 1 0 0 0))).length = 16 := by
  refine ⟨by decide, by decide⟩

/-- Claim C10, counterexample: on "9am - 10am" no substring matches the
time-range shape and whitespace separates the first time token from the
hyphen, yet parsing fails citing "days not found" (the day check precedes
the time check), not "times not found" as the claim states. -/
theorem claim_C10_counterexample :
    searchTimeMatch (("9am - 10am").toList) = none ∧
    parseRecurrenceString (("9am - 10am").toList) =
      Except.error ("Invalid recurrence string: days not found") ∧
    ¬ parseRecurrenceString (("9am - 10am").toList) =
      Except.error ("Invalid recurrence string: times not found") := by
  refine ⟨by decide, by decide, by decide⟩

/-! ### Character-class facts -/

/-- Digit characters are none of the structural characters the parser treats
specially, are unchanged by lower-casing, and are not whitespace. -/
theorem isDig_facts {c : Char} (h : isDig c = true) :
    jsWhitespace c = false ∧ jsToLower c = c ∧ c ≠ ':' ∧ c ≠ 'a' ∧ c ≠ 'p' ∧
    c ≠ 'm' ∧ c ≠ '-' ∧ c ≠ '+' ∧ c ≠ '\n' ∧ isDash c = false ∧ digToNat c ≤ 9 := by
  simp only [isDig, Bool.or_eq_true, decide_eq_true_eq] at h
  rcases h with (((((((((h | h) | h) | h) | h) | h) | h) | h) | h) | h) <;>
    subst h <;> decide

/-- Whitespace characters are not digits, not letters the marker logic looks
for, not a colon, and are unchanged by lower-casing. -/
theorem ws_facts {c : Char} (h : jsWhitespace c = true) :
    isDig c = false ∧ jsToLower c = c ∧ c ≠ ':' ∧ c ≠ 'a' ∧ c ≠ 'p' ∧ c ≠ 'm' := by
  simp only [jsWhitespace, Bool.or_eq_true, decide_eq_true_eq] at h
  rcases h with
    ((((((((((((((((((((((((h | h) | h) | h) | h) | h) | h) | h) | h) | h) | h) |
      h) | h) | h) | h) | h) | h) | h) | h) | h) | h) | h) | h) | h) | h) <;>
    subst h <;> decide

/-- Day letters all have a table entry, and none of them is a digit or
whitespace. -/
theorem dayLetter_facts {c : Char} (h : isDayLetter c = true) :
    dayMapFn c = some (dayCode c) ∧ isDig c = false ∧ jsWhitespace c = false := by
  simp only [isDayLetter, Bool.or_eq_true, decide_eq_true_eq] at h
  rcases h with ((((((h | h) | h) | h) | h) | h) | h) <;> subst h <;> decide

/-- The day translation loop never takes its defensive error branch on a
run of supported day letters: it maps each letter through the table. -/
theorem mapDays_ok :
    ∀ l : List Char, (∀ c ∈ l, isDayLetter c = true) →
      mapDays l = Except.ok (l.map dayCode) := by
  intro l
  induction l with
  | nil => intro _; rfl
  | cons x xs ih =>
    intro h
    have hx := (dayLetter_facts (h x (List.mem_cons_self x xs))).1
    simp only [mapDays, hx]
    rw [ih (fun c hc => h c (List.mem_cons_of_mem x hc))]
    rfl

/-- Successful day extraction returns exactly the maximal day-letter run,
which is non-empty and followed by a whitespace character. -/
theorem dayScan_some {s run : List Char} (h : dayScan s = some run) :
    run = s.takeWhile isDayLetter ∧ run.isEmpty = false := by
  simp only [dayScan] at h
  split at h
  · split at h
    · cases h
    · split at h
      · rename_i he _
        have hr := (Option.some.inj h).symm
        subst hr
        refine ⟨rfl, ?_⟩
        cases hb : (s.takeWhile isDayLetter).isEmpty with
        | false => rfl
        | true => exact absurd hb he
      · cases h
  · cases h

/-- Claim C9: the "unsupported day letter" failure branch is unreachable;
the parser's only error messages are the missing-days and missing-times
ones. -/
theorem claim_C9 (s : List Char) (r : String)
    (h : parseRecurrenceString s = Except.error r) :
    r = "Invalid recurrence string: days not found" ∨
    r = "Invalid recurrence string: times not found" := by
  simp only [parseRecurrenceString] at h
  cases hd : dayScan s with
  | none =>
    simp only [hd] at h
    left
    injection h with h
    exact h.symm
  | some run =>
    simp only [hd] at h
    rw [mapDays_ok run
      (by rw [(dayScan_some hd).1]; exact fun c hc => List.mem_takeWhile_imp hc)] at h
    cases ht : searchTimeMatch s with
    | none =>
      simp only [ht] at h
      right
      injection h with h
      exact h.symm
    | some p => simp only [ht] at h; cases h

/-- Claim C9 witness: instantiating the error classification at the
concrete failing input "x". -/
theorem claim_C9_witness :
    "Invalid recurrence string: days not found" =
      "Invalid recurrence string: days not found" ∨
    "Invalid recurrence string: days not found" =
      "Invalid recurrence string: times not found" :=
  claim_C9 (("x").toList) "Invalid recurrence string: days not found" (by decide)

/-- A `takeWhile` run stops exactly at the first failing element. -/
theorem takeWhile_append_cons (p : α → Bool) (l : List α) (c : α) (r : List α)
    (hl : ∀ x ∈ l, p x = true) (hc : p c = false) :
    (l ++ c :: r).takeWhile p = l := by
  induction l with
  | nil => simp [List.takeWhile_cons, hc]
  | cons x xs ih =>
    rw [List.cons_append, List.takeWhile_cons, hl x (List.mem_cons_self x xs)]
    simp only [if_true]
    rw [ih (fun y hy => hl y (List.mem_cons_of_mem x hy))]

/-- Day extraction on a day-letter run followed by a space and arbitrary
text returns exactly that run. -/
theorem dayScan_append (ds R : List Char) (hne : ds ≠ [])
    (hall : ∀ c ∈ ds, isDayLetter c = true) :
    dayScan (ds ++ ' ' :: R) = some ds := by
  have ht : (ds ++ ' ' :: R).takeWhile isDayLetter = ds :=
    takeWhile_append_cons _ _ _ _ hall (by decide)
  simp only [dayScan, ht, List.drop_left]
  have hne' : ds.isEmpty = false := by
    cases ds with
    | nil => exact absurd rfl hne
    | cons a l => rfl
  simp [hne']
  decide

/-- No time-range match can start at a non-digit character. -/
theorem matchAt_nondigit {c : Char} (rest : List Char) (h : isDig c = false) :
    matchAt (c :: rest) = none := by
  cases rest with
  | nil => simp [matchAt, tokenAlts, digitsAlts, h, concatMap]
  | cons y ys => simp [matchAt, tokenAlts, digitsAlts, h, concatMap]

/-- The leftmost search steps over a non-digit head character. -/
theorem searchTimeMatch_cons_nondigit {c : Char} {rest : List Char}
    (h : isDig c = false) :
    searchTimeMatch (c :: rest) = searchTimeMatch rest := by
  conv_lhs => rw [searchTimeMatch]
  rw [matchAt_nondigit rest h]

/-- The leftmost search skips any digit-free prefix. -/
theorem searchTimeMatch_append (l R : List Char)
    (h : ∀ c ∈ l, isDig c = false) :
    searchTimeMatch (l ++ R) = searchTimeMatch R := by
  induction l with
  | nil => rfl
  | cons x xs ih =>
    rw [List.cons_append, searchTimeMatch_cons_nondigit (h x (List.mem_cons_self x xs))]
    exact ih (fun y hy => h y (List.mem_cons_of_mem x hy))

/-- Claim C5: for every non-empty day-letter sequence `ds` and every string
`R` on which the time-range search succeeds, parsing `ds ++ " " ++ R`
succeeds and returns exactly the letter-for-letter table translation of
`ds` — same length, same order, duplicates preserved. -/
theorem claim_C5 (ds R t1 t2 : List Char) (hne : ds ≠ [])
    (hall : ∀ c ∈ ds, isDayLetter c = true)
    (hR : searchTimeMatch R = some (t1, t2)) :
    parseRecurrenceString (ds ++ ' ' :: R) =
      Except.ok ⟨ds.map dayCode, parseTime t1, parseTime t2⟩ ∧
    (ds.map dayCode).length = ds.length := by
  have hsearch : searchTimeMatch (ds ++ ' ' :: R) = some (t1, t2) := by
    rw [searchTimeMatch_append ds (' ' :: R)
      (fun c hc => (dayLetter_facts (hall c hc)).2.1)]
    rw [searchTimeMatch_cons_nondigit (by decide)]
    exact hR
  refine ⟨?_, List.length_map ds dayCode⟩
  simp only [parseRecurrenceString, dayScan_append ds R hne hall,
    mapDays_ok ds hall, hsearch]

/-- Claim C5 witness: the general mapping theorem instantiated at
"TR 11am-12:15pm" (day letters "TR", range "11am-12:15pm"). -/
theorem claim_C5_witness :
    parseRecurrenceString (['T', 'R'] ++ ' ' :: ("11am-12:15pm").toList) =
      Except.ok ⟨['T', 'R'].map dayCode, parseTime (("11am").toList),
        parseTime (("12:15pm").toList)⟩ ∧
    (['T', 'R'].map dayCode).length = (['T', 'R'] : List Char).length :=
  claim_C5 ['T', 'R'] (("11am-12:15pm").toList) (("11am").toList)
    (("12:15pm").toList) (by decide) (by decide) (by decide)

/-! ### Bounds of the calendar fields -/

/-- The month and day produced by the calendar decomposition always lie in
the calendar ranges, for every integer day number. -/
theorem civilFromDays_bounds (z0 : Int) :
    1 ≤ (civilFromDays z0).2.1 ∧ (civilFromDays z0).2.1 ≤ 12 ∧
    1 ≤ (civilFromDays z0).2.2 ∧ (civilFromDays z0).2.2 ≤ 31 := by
  simp only [civilFromDays]
  split_ifs <;> omega

/-- Month bound, stated for the accessor used by the formatter. -/
theorem getUTCMonthPlus1_bounds (ms : Int) :
    1 ≤ getUTCMonthPlus1 ms ∧ getUTCMonthPlus1 ms ≤ 12 :=
  ⟨(civilFromDays_bounds (ms / 86400000)).1, (civilFromDays_bounds (ms / 86400000)).2.1⟩

/-- Day-of-month bound, stated for the accessor used by the formatter. -/
theorem getUTCDate_bounds (ms : Int) :
    1 ≤ getUTCDate ms ∧ getUTCDate ms ≤ 31 :=
  ⟨(civilFromDays_bounds (ms / 86400000)).2.2.1, (civilFromDays_bounds (ms / 86400000)).2.2.2⟩

/-- The time-of-day accessors stay inside their clock ranges. -/
theorem utcClock_bounds (ms : Int) :
    0 ≤ getUTCHours ms ∧ getUTCHours ms ≤ 23 ∧
    0 ≤ getUTCMinutes ms ∧ getUTCMinutes ms ≤ 59 ∧
    0 ≤ getUTCSeconds ms ∧ getUTCSeconds ms ≤ 59 := by
  unfold getUTCHours getUTCMinutes getUTCSeconds
  omega

/-! ### Decimal rendering facts -/

/-- The digit renderer only emits digit characters. -/
theorem digitChar10_isDig (n : Nat) : isDig (digitChar10 n) = true := by
  unfold digitChar10
  split_ifs <;> rfl

/-- A value below ten renders as a single digit regardless of fuel. -/
theorem natDigitsAux_small (f m : Nat) (acc : List Char) (h : m < 10) :
    natDigitsAux f m acc = digitChar10 m :: acc := by
  cases f with
  | zero => rfl
  | succ f => simp [natDigitsAux, h]

/-- One unfolding step of the digit loop when the value has several
digits and the fuel has not run out. -/
theorem natDigitsAux_step {f n : Nat} (acc : List Char) (hf : n ≤ f)
    (h : ¬ n < 10) :
    natDigitsAux f n acc = natDigitsAux (f - 1) (n / 10) (digitChar10 (n % 10) :: acc) := by
  cases f with
  | zero => omega
  | succ f => simp [natDigitsAux, h]

/-- Two-digit rendering. -/
theorem natDigitsAux_two {f n : Nat} (acc : List Char) (hf : n ≤ f)
    (h1 : 10 ≤ n) (h2 : n ≤ 99) :
    natDigitsAux f n acc = digitChar10 (n / 10) :: digitChar10 (n % 10) :: acc := by
  rw [natDigitsAux_step acc hf (by omega), natDigitsAux_small _ _ _ (by omega)]

/-- Three-digit rendering. -/
theorem natDigitsAux_three {f n : Nat} (acc : List Char) (hf : n ≤ f)
    (h1 : 100 ≤ n) (h2 : n ≤ 999) :
    natDigitsAux f n acc =
      digitChar10 (n / 10 / 10) :: digitChar10 (n / 10 % 10) ::
        digitChar10 (n % 10) :: acc := by
  rw [natDigitsAux_step acc hf (by omega), natDigitsAux_two _ (by omega) (by omega) (by omega)]

/-- Four-digit rendering. -/
theorem natDigitsAux_four {f n : Nat} (acc : List Char) (hf : n ≤ f)
    (h1 : 1000 ≤ n) (h2 : n ≤ 9999) :
    natDigitsAux f n acc =
      digitChar10 (n / 10 / 10 / 10) :: digitChar10 (n / 10 / 10 % 10) ::
        digitChar10 (n / 10 % 10) :: digitChar10 (n % 10) :: acc := by
  rw [natDigitsAux_step acc hf (by omega), natDigitsAux_three _ (by omega) (by omega) (by omega)]

/-- Single-digit rendering of small numbers. -/
theorem natDigits_lt10 {n : Nat} (h : n < 10) : natDigits n = [digitChar10 n] :=
  natDigitsAux_small n n [] h

/-- A non-negative integer at most two digits wide renders, after the
two-digit pad, as exactly two digit characters. -/
theorem pad2_intToChars {i : Int} (h0 : 0 ≤ i) (h99 : i ≤ 99) :
    (pad2 (intToChars i)).length = 2 ∧
    ∀ c ∈ pad2 (intToChars i), isDig c = true := by
  rw [intToChars, if_neg (by omega)]
  by_cases h : i.toNat < 10
  · rw [natDigits_lt10 h]
    refine ⟨rfl, ?_⟩
    intro c hc
    rcases List.mem_cons.mp hc with hc | hc
    · subst hc; rfl
    · rcases List.mem_cons.mp hc with hc | hc
      · subst hc; exact digitChar10_isDig _
      · simp at hc
  · rw [show natDigits i.toNat =
        digitChar10 (i.toNat / 10) :: digitChar10 (i.toNat % 10) :: [] from
        natDigitsAux_two [] (le_refl _) (by omega) (by omega)]
    refine ⟨rfl, ?_⟩
    intro c hc
    rcases List.mem_cons.mp hc with hc | hc
    · subst hc; exact digitChar10_isDig _
    · rcases List.mem_cons.mp hc with hc | hc
      · subst hc; exact digitChar10_isDig _
      · simp at hc

/-- A four-digit year renders unpadded as exactly four digit characters. -/
theorem intToChars_year {i : Int} (h0 : 1000 ≤ i) (h9 : i ≤ 9999) :
    (intToChars i).length = 4 ∧ ∀ c ∈ intToChars i, isDig c = true := by
  rw [intToChars, if_neg (by omega)]
  rw [show natDigits i.toNat =
      digitChar10 (i.toNat / 10 / 10 / 10) :: digitChar10 (i.toNat / 10 / 10 % 10) ::
        digitChar10 (i.toNat / 10 % 10) :: digitChar10 (i.toNat % 10) :: [] from
      natDigitsAux_four [] (le_refl _) (by omega) (by omega)]
  refine ⟨rfl, ?_⟩
  intro c hc
  simp only [List.mem_cons, List.not_mem_nil, or_false] at hc
  rcases hc with hc | hc | hc | hc <;> subst hc <;> exact digitChar10_isDig _

/-- Claim C4 (amended): the formatter renders the year unpadded and every
other field zero-padded to two digits; for instants whose UTC year lies in
[1000, 9999] the output therefore has the sixteen-character shape
YYYYMMDDTHHMMSSZ (digits except the literal T and the trailing Z). -/
theorem claim_C4_amended (ms : Int)
    (h1 : 1000 ≤ getUTCFullYear ms) (h2 : getUTCFullYear ms ≤ 9999) :
    ∃ ys mos ds hs mins secs : List Char,
      formatDateTo5545 (some ms) =
        ys ++ mos ++ ds ++ ['T'] ++ hs ++ mins ++ secs ++ ['Z'] ∧
      ys = intToChars (getUTCFullYear ms) ∧
      ys.length = 4 ∧ mos.length = 2 ∧ ds.length = 2 ∧ hs.length = 2 ∧
      mins.length = 2 ∧ secs.length = 2 ∧
      (∀ c ∈ ys ++ mos ++ ds ++ hs ++ mins ++ secs, isDig c = true) ∧
      (formatDateTo5545 (some ms)).length = 16 := by
  refine ⟨intToChars (getUTCFullYear ms), pad2 (intToChars (getUTCMonthPlus1 ms)),
    pad2 (intToChars (getUTCDate ms)), pad2 (intToChars (getUTCHours ms)),
    pad2 (intToChars (getUTCMinutes ms)), pad2 (intToChars (getUTCSeconds ms)),
    rfl, rfl, ?_⟩
  have hy := intToChars_year h1 h2
  have hmo := pad2_intToChars (i := getUTCMonthPlus1 ms)
    (by have := getUTCMonthPlus1_bounds ms; omega)
    (by have := getUTCMonthPlus1_bounds ms; omega)
  have hd := pad2_intToChars (i := getUTCDate ms)
    (by have := getUTCDate_bounds ms; omega) (by have := getUTCDate_bounds ms; omega)
  have hh := pad2_intToChars (i := getUTCHours ms)
    (by have := utcClock_bounds ms; omega) (by have := utcClock_bounds ms; omega)
  have hmi := pad2_intToChars (i := getUTCMinutes ms)
    (by have := utcClock_bounds ms; omega) (by have := utcClock_bounds ms; omega)
  have hs := pad2_intToChars (i := getUTCSeconds ms)
    (by have := utcClock_bounds ms; omega) (by have := utcClock_bounds ms; omega)
  refine ⟨hy.1, hmo.1, hd.1, hh.1, hmi.1, hs.1, ?_, ?_⟩
  · intro c hc
    simp only [List.mem_append] at hc
    rcases hc with ((((hc | hc) | hc) | hc) | hc) | hc
    · exact hy.2 c hc
    · exact hmo.2 c hc
    · exact hd.2 c hc
    · exact hh.2 c hc
    · exact hmi.2 c hc
    · exact hs.2 c hc
  · simp only [formatDateTo5545, List.length_append, List.length_cons,
      List.length_nil, hy.1, hmo.1, hd.1, hh.1, hmi.1, hs.1]

/-- Claim C4 witness: the amended shape theorem instantiated at the instant
2025-03-10T00:00:00Z. -/
theorem claim_C4_amended_witness :
    ∃ ys mos ds hs mins secs : List Char,
      formatDateTo5545 (some (mkUtcMs 2025 3 10 0 0 0)) =
        ys ++ mos ++ ds ++ ['T'] ++ hs ++ mins ++ secs ++ ['Z'] ∧
      ys = intToChars (getUTCFullYear (mkUtcMs 2025 3 10 0 0 0)) ∧
      ys.length = 4 ∧ mos.length = 2 ∧ ds.length = 2 ∧ hs.length = 2 ∧
      mins.length = 2 ∧ secs.length = 2 ∧
      (∀ c ∈ ys ++ mos ++ ds ++ hs ++ mins ++ secs, isDig c = true) ∧
      (formatDateTo5545 (some (mkUtcMs 2025 3 10 0 0 0))).length = 16 :=
  claim_C4_amended (mkUtcMs 2025 3 10 0 0 0) (by decide) (by decide)

/-! ### Structure of a successful parse -/

/-- A successful parse returns the table translation of the maximal
day-letter run together with the two parsed capture groups of the leftmost
time-range match. -/
theorem parse_ok_struct {rec : List Char} {pat : RecurrencePattern}
    (h : parseRecurrenceString rec = Except.ok pat) :
    pat.days = (rec.takeWhile isDayLetter).map dayCode ∧
    ∃ t1 t2, searchTimeMatch rec = some (t1, t2) ∧
      pat.startTime = parseTime t1 ∧ pat.endTime = parseTime t2 := by
  simp only [parseRecurrenceString] at h
  cases hd : dayScan rec with
  | none => simp [hd] at h
  | some run =>
    simp only [hd] at h
    rw [mapDays_ok run
      (by rw [(dayScan_some hd).1]; exact fun c hc => List.mem_takeWhile_imp hc)] at h
    cases ht : searchTimeMatch rec with
    | none => simp [ht] at h
    | some p =>
      obtain ⟨t1, t2⟩ := p
      simp only [ht] at h
      injection h with h
      subst h
      exact ⟨by rw [(dayScan_some hd).1], t1, t2, rfl, rfl, rfl⟩

/-! ### Newline-freeness of the rendered pieces -/

/-- Every character of the digit loop output is a digit or comes from the
accumulator. -/
theorem natDigitsAux_mem :
    ∀ (f n : Nat) (acc : List Char) (c : Char), c ∈ natDigitsAux f n acc →
      isDig c = true ∨ c ∈ acc := by
  intro f
  induction f with
  | zero =>
    intro n acc c hc
    rcases List.mem_cons.mp hc with hc | hc
    · subst hc; exact Or.inl (digitChar10_isDig n)
    · exact Or.inr hc
  | succ f ih =>
    intro n acc c hc
    rw [natDigitsAux] at hc
    by_cases h : n < 10
    · rw [if_pos h] at hc
      rcases List.mem_cons.mp hc with hc | hc
      · subst hc; exact Or.inl (digitChar10_isDig n)
      · exact Or.inr hc
    · rw [if_neg h] at hc
      rcases ih (n / 10) _ c hc with hc | hc
      · exact Or.inl hc
      · rcases List.mem_cons.mp hc with hc | hc
        · subst hc; exact Or.inl (digitChar10_isDig _)
        · exact Or.inr hc

/-- Every character of a rendered integer is a digit or the minus sign. -/
theorem intToChars_mem {i : Int} {c : Char} (hc : c ∈ intToChars i) :
    isDig c = true ∨ c = '-' := by
  rw [intToChars] at hc
  by_cases h : i < 0
  · rw [if_pos h] at hc
    rcases List.mem_cons.mp hc with hc | hc
    · exact Or.inr hc
    · rcases natDigitsAux_mem _ _ _ _ hc with hc | hc
      · exact Or.inl hc
      · simp at hc
  · rw [if_neg h] at hc
    rcases natDigitsAux_mem _ _ _ _ hc with hc | hc
    · exact Or.inl hc
    · simp at hc

/-- Every character of a padded field is a zero or comes from the field. -/
theorem padN_mem {k : Nat} {s : List Char} {c : Char} (hc : c ∈ padN k s) :
    c = '0' ∨ c ∈ s := by
  rw [padN] at hc
  rcases List.mem_append.mp hc with hc | hc
  · exact Or.inl (List.eq_of_mem_replicate hc)
  · exact Or.inr hc

/-- The compact timestamp never contains a newline, for valid and invalid
dates alike. -/
theorem formatDateTo5545_noNl (d : Option Int) : '\n' ∉ formatDateTo5545 d := by
  cases d with
  | none => decide
  | some ms =>
    intro hc
    simp only [formatDateTo5545, List.mem_append, List.mem_cons,
      List.not_mem_nil, or_false] at hc
    have dig : ∀ i : Int, ('\n' ∈ pad2 (intToChars i)) → False := by
      intro i hmem
      rcases padN_mem hmem with h0 | h0
      · cases h0
      · rcases intToChars_mem h0 with h1 | h1
        · exact absurd h1 (by decide)
        · cases h1
    rcases hc with ((((((hc | hc) | hc) | hc) | hc) | hc) | hc) | hc
    · rcases intToChars_mem hc with h1 | h1
      · exact absurd h1 (by decide)
      · cases h1
    · exact dig _ hc
    · exact dig _ hc
    · cases hc
    · exact dig _ hc
    · exact dig _ hc
    · exact dig _ hc
    · cases hc

/-- Joined day codes coming from the table contain no newline. -/
theorem joinWith_mem {sep : List Char} {c : Char} :
    ∀ {ls : List (List Char)}, c ∈ joinWith sep ls →
      c ∈ sep ∨ ∃ l ∈ ls, c ∈ l := by
  intro ls
  induction ls with
  | nil => intro hc; cases hc
  | cons x xs ih =>
    cases xs with
    | nil =>
      intro hc
      exact Or.inr ⟨x, List.mem_cons_self x [], hc⟩
    | cons y ys =>
      intro hc
      rw [joinWith] at hc
      rcases List.mem_append.mp hc with hc | hc
      · rcases List.mem_append.mp hc with hc | hc
        · exact Or.inr ⟨x, List.mem_cons_self x _, hc⟩
        · exact Or.inl hc
      · rcases ih hc with hc | ⟨l, hl, hcl⟩
        · exact Or.inl hc
        · exact Or.inr ⟨l, List.mem_cons_of_mem x hl, hcl⟩

/-- A day code of a supported letter contains no newline. -/
theorem dayCode_noNl {c : Char} (hc : isDayLetter c = true) : '\n' ∉ dayCode c := by
  simp only [isDayLetter, Bool.or_eq_true, decide_eq_true_eq] at hc
  rcases hc with ((((((h | h) | h) | h) | h) | h) | h) <;> subst h <;> decide

/-! ### Splitting on newlines -/

/-- Splitting a newline-free string returns the single piece. -/
theorem splitNl_no_nl : ∀ {l : List Char}, '\n' ∉ l → splitNl l = [l] := by
  intro l
  induction l with
  | nil => intro _; rfl
  | cons c cs ih =>
    intro h
    have hc : ¬ c = '\n' := fun hq => h (hq ▸ List.mem_cons_self c cs)
    rw [splitNl, if_neg hc, ih (fun hm => h (List.mem_cons_of_mem c hm))]

/-- Splitting peels off one newline-free line at a time. -/
theorem splitNl_append_nl :
    ∀ {a : List Char} (b : List Char), '\n' ∉ a →
      splitNl (a ++ '\n' :: b) = a :: splitNl b := by
  intro a
  induction a with
  | nil =>
    intro b _
    rw [List.nil_append, splitNl, if_pos rfl]
  | cons c cs ih =>
    intro b h
    have hc : ¬ c = '\n' := fun hq => h (hq ▸ List.mem_cons_self c cs)
    rw [List.cons_append, splitNl, if_neg hc,
      ih b (fun hm => h (List.mem_cons_of_mem c hm))]

/-- Splitting the newline-join of newline-free lines recovers the lines. -/
theorem splitNl_joinWith :
    ∀ ls : List (List Char), (∀ l ∈ ls, '\n' ∉ l) → ls ≠ [] →
      splitNl (joinWith ['\n'] ls) = ls := by
  intro ls
  induction ls with
  | nil => intro _ hne; cases hne rfl
  | cons x xs ih =>
    intro h hne
    cases xs with
    | nil => exact splitNl_no_nl (h x (List.mem_cons_self x []))
    | cons y ys =>
      rw [joinWith]
      rw [show x ++ ['\n'] ++ joinWith ['\n'] (y :: ys) =
        x ++ '\n' :: joinWith ['\n'] (y :: ys) from by simp]
      rw [splitNl_append_nl _ (h x (List.mem_cons_self x _)),
        ih (fun l hl => h l (List.mem_cons_of_mem x hl)) (List.cons_ne_nil y ys)]

/-- Claim C2 (amended): every successful `parseTo5545` output is a block of
exactly five newline-joined lines in fixed order — BEGIN:VEVENT, a DTSTART:
line, a DTEND: line, the RRULE line, END:VEVENT — with no trailing
newline. -/
theorem claim_C2_amended (tz startMs endMs : Int) (rec out : List Char)
    (h : parseTo5545 tz startMs endMs rec = Except.ok out) :
    ∃ l2 l3 l4 : List Char,
      splitNl out = [("BEGIN:VEVENT").toList, ("DTSTART:").toList ++ l2,
        ("DTEND:").toList ++ l3, ("RRULE:FREQ=WEEKLY;BYDAY=").toList ++ l4,
        ("END:VEVENT").toList] ∧
      (splitNl out).length = 5 := by
  simp only [parseTo5545] at h
  cases hp : parseRecurrenceString rec with
  | error e => simp [hp] at h
  | ok pat =>
    simp only [hp] at h
    injection h with h
    subst h
    have hdays : '\n' ∉ joinWith [','] pat.days := by
      intro hmem
      rcases joinWith_mem hmem with hc | ⟨l, hl, hcl⟩
      · simp at hc
      · rw [(parse_ok_struct hp).1] at hl
        rcases List.mem_map.mp hl with ⟨x, hx, hxl⟩
        exact dayCode_noNl (List.mem_takeWhile_imp hx) (hxl ▸ hcl)
    have hsplit := splitNl_joinWith
      [("BEGIN:VEVENT").toList,
       ("DTSTART:").toList ++
         formatDateTo5545 (setTime startMs tz pat.startTime.hours pat.startTime.minutes),
       ("DTEND:").toList ++
         formatDateTo5545 (setTime startMs tz pat.endTime.hours pat.endTime.minutes),
       ("RRULE:FREQ=WEEKLY;BYDAY=").toList ++ joinWith [','] pat.days ++
         (";UNTIL=").toList ++ formatDateTo5545 (some endMs),
       ("END:VEVENT").toList]
      (by
        intro l hl
        simp only [List.mem_cons, List.not_mem_nil, or_false] at hl
        rcases hl with hl | hl | hl | hl | hl <;> subst hl
        · decide
        · intro hc
          rcases List.mem_append.mp hc with hc | hc
          · revert hc; decide
          · exact formatDateTo5545_noNl _ hc
        · intro hc
          rcases List.mem_append.mp hc with hc | hc
          · revert hc; decide
          · exact formatDateTo5545_noNl _ hc
        · intro hc
          rcases List.mem_append.mp hc with hc | hc
          · rcases List.mem_append.mp hc with hc | hc
            · rcases List.mem_append.mp hc with hc | hc
              · revert hc; decide
              · exact hdays hc
            · revert hc; decide
          · exact formatDateTo5545_noNl _ hc
        · decide)
      (List.cons_ne_nil _ _)
    refine ⟨formatDateTo5545 (setTime startMs tz pat.startTime.hours pat.startTime.minutes),
      formatDateTo5545 (setTime startMs tz pat.endTime.hours pat.endTime.minutes),
      joinWith [','] pat.days ++ (";UNTIL=").toList ++ formatDateTo5545 (some endMs),
      ?_, ?_⟩
    · rw [hsplit]
      simp [List.append_assoc]
    · rw [hsplit]
      rfl

/-- Claim C2 witness: the five-line structure at the concrete scenario of
the repository's example usage. -/
theorem claim_C2_amended_witness :
    ∃ l2 l3 l4 : List Char,
      splitNl (("BEGIN:VEVENT\nDTSTART:20250310T110000Z\nDTEND:20250310T121500Z\nRRULE:FREQ=WEEKLY;BYDAY=TU,TH;UNTIL=20250610T235959Z\nEND:VEVENT").toList) =
        [("BEGIN:VEVENT").toList, ("DTSTART:").toList ++ l2,
         ("DTEND:").toList ++ l3, ("RRULE:FREQ=WEEKLY;BYDAY=").toList ++ l4,
         ("END:VEVENT").toList] ∧
      (splitNl (("BEGIN:VEVENT\nDTSTART:20250310T110000Z\nDTEND:20250310T121500Z\nRRULE:FREQ=WEEKLY;BYDAY=TU,TH;UNTIL=20250610T235959Z\nEND:VEVENT").toList)).length = 5 :=
  claim_C2_amended 0 (mkUtcMs 2025 3 10 0 0 0) (mkUtcMs 2025 6 10 23 59 59)
    (("TR 11am-12:15pm").toList) _ (by decide)

/-- Membership in a `concatMap` comes from some element of the source. -/
theorem mem_concatMap {f : α → List β} {x : β} :
    ∀ {l : List α}, x ∈ concatMap f l → ∃ a ∈ l, x ∈ f a := by
  intro l
  induction l with
  | nil => intro hx; cases hx
  | cons y ys ih =>
    intro hx
    rcases List.mem_append.mp hx with hx | hx
    · exact ⟨y, List.mem_cons_self y ys, hx⟩
    · rcases ih hx with ⟨a, ha, hfa⟩
      exact ⟨a, List.mem_cons_of_mem y ha, hfa⟩

/-- A successful `findSome?` is produced by some member of the list. -/
theorem findSome?_mem {f : α → Option β} {b : β} :
    ∀ {l : List α}, l.findSome? f = some b → ∃ a ∈ l, f a = some b := by
  intro l
  induction l with
  | nil => intro h; cases h
  | cons x xs ih =>
    intro h
    rw [List.findSome?_cons] at h
    cases hf : f x with
    | some v =>
      simp only [hf] at h
      exact ⟨x, List.mem_cons_self x xs, by rw [hf]; exact h⟩
    | none =>
      simp only [hf] at h
      rcases ih h with ⟨a, ha, hfa⟩
      exact ⟨a, List.mem_cons_of_mem x ha, hfa⟩

/-- Every alternative produced for the digits part is one or two digits. -/
theorem digitsAlts_shape {s t r : List Char} (h : (t, r) ∈ digitsAlts s) :
    IsDigits12 t := by
  match s with
  | [] => cases h
  | [c1] =>
    rw [digitsAlts] at h
    by_cases hd : isDig c1 = true
    · rw [if_pos hd] at h
      rcases List.mem_singleton.mp h with h
      injection h with h1 h2
      exact Or.inl ⟨c1, h1.symm ▸ rfl, hd⟩
    · rw [if_neg hd] at h; cases h
  | c1 :: c2 :: rest =>
    rw [digitsAlts] at h
    by_cases h1 : isDig c1 = true
    · rw [if_pos h1] at h
      by_cases h2 : isDig c2 = true
      · rw [if_pos h2] at h
        rcases List.mem_cons.mp h with h | h
        · injection h with ha hb
          exact Or.inr ⟨c1, c2, ha.symm ▸ rfl, h1, h2⟩
        · rcases List.mem_singleton.mp h with h
          injection h with ha hb
          exact Or.inl ⟨c1, ha.symm ▸ rfl, h1⟩
      · rw [if_neg h2] at h
        rcases List.mem_singleton.mp h with h
        injection h with ha hb
        exact Or.inl ⟨c1, ha.symm ▸ rfl, h1⟩
    · rw [if_neg h1] at h
      cases h

/-- Every alternative produced for the colon part is empty or a colon and
two digits. -/
theorem colonAlts_shape {s t r : List Char} (h : (t, r) ∈ colonAlts s) :
    IsColonOpt t := by
  unfold colonAlts at h
  rcases List.mem_append.mp h with h | h
  · split at h
    case _ =>
      rename_i a b rest hold
      by_cases hd : (isDig a && isDig b) = true
      · rw [if_pos hd] at h
        rcases List.mem_singleton.mp h with h
        injection h with h1 h2
        rcases Bool.and_eq_true_iff.mp hd with ⟨ha, hb⟩
        exact Or.inr ⟨a, b, h1, ha, hb⟩
      · rw [if_neg hd] at h; cases h
    case _ => cases h
  · rcases List.mem_singleton.mp h with h
    injection h with h1 h2
    exact Or.inl h1

/-- Every alternative produced for the whitespace part is empty or a single
whitespace character. -/
theorem wsAlts_shape {s t r : List Char} (h : (t, r) ∈ wsAlts s) :
    IsWsOpt t := by
  unfold wsAlts at h
  rcases List.mem_append.mp h with h | h
  · split at h
    case _ =>
      rename_i c rest hold
      by_cases hw : jsWhitespace c = true
      · rw [if_pos hw] at h
        rcases List.mem_singleton.mp h with h
        injection h with h1 h2
        exact Or.inr ⟨c, h1, hw⟩
      · rw [if_neg hw] at h; cases h
    case _ => cases h
  · rcases List.mem_singleton.mp h with h
    injection h with h1 h2
    exact Or.inl h1

/-- Every alternative produced for the marker part is empty or a two-letter
case-insensitive am/pm marker. -/
theorem markerAlts_shape {s t r : List Char} (h : (t, r) ∈ markerAlts s) :
    IsMarkOpt t := by
  unfold markerAlts at h
  rcases List.mem_append.mp h with h | h
  · split at h
    case _ =>
      rename_i a m rest hold
      rcases List.mem_append.mp h with h | h
      · by_cases hd : (isMarkA a && isMarkM m) = true
        · rw [if_pos hd] at h
          rcases List.mem_singleton.mp h with h
          injection h with h1 h2
          rcases Bool.and_eq_true_iff.mp hd with ⟨ha, hm⟩
          exact Or.inr ⟨a, m, h1, Or.inl ha, hm⟩
        · rw [if_neg hd] at h; cases h
      · by_cases hd : (isMarkP a && isMarkM m) = true
        · rw [if_pos hd] at h
          rcases List.mem_singleton.mp h with h
          injection h with h1 h2
          rcases Bool.and_eq_true_iff.mp hd with ⟨ha, hm⟩
          exact Or.inr ⟨a, m, h1, Or.inr ha, hm⟩
        · rw [if_neg hd] at h; cases h
    case _ => cases h
  · rcases List.mem_singleton.mp h with h
    injection h with h1 h2
    exact Or.inl h1

/-- Every token alternative has the captured-token shape. -/
theorem tokenAlts_shape {s t r : List Char} (h : (t, r) ∈ tokenAlts s) :
    IsToken t := by
  rw [tokenAlts] at h
  rcases mem_concatMap h with ⟨p1, hp1, h⟩
  rcases mem_concatMap h with ⟨p2, hp2, h⟩
  rcases mem_concatMap h with ⟨p3, hp3, h⟩
  rcases List.mem_map.mp h with ⟨p4, hp4, hmk⟩
  injection hmk with h1 h2
  exact ⟨p1.1, p2.1, p3.1, p4.1, h1.symm,
    digitsAlts_shape (t := p1.1) (r := p1.2) hp1,
    colonAlts_shape (t := p2.1) (r := p2.2) hp2,
    wsAlts_shape (t := p3.1) (r := p3.2) hp3,
    markerAlts_shape (t := p4.1) (r := p4.2) hp4⟩

/-- Both capture groups of a successful anchored match are tokens. -/
theorem matchAt_shape {s : List Char} {t1 t2 : List Char}
    (h : matchAt s = some (t1, t2)) : IsToken t1 ∧ IsToken t2 := by
  rw [matchAt] at h
  rcases findSome?_mem h with ⟨p, hp, hfp⟩
  rcases p with ⟨pt, pr⟩
  cases pr with
  | nil => cases hfp
  | cons c r2 =>
    dsimp only at hfp
    by_cases hd : isDash c = true
    · rw [if_pos hd] at hfp
      cases hq : tokenAlts r2 with
      | nil => rw [hq] at hfp; cases hfp
      | cons q qs =>
        rw [hq] at hfp
        injection hfp with hfp
        injection hfp with he1 he2
        subst he1; subst he2
        refine ⟨tokenAlts_shape (t := pt) (r := c :: r2) hp, ?_⟩
        exact tokenAlts_shape (t := q.1) (r := q.2)
          (by rw [hq]; exact List.mem_cons_self (q.1, q.2) qs)
    · rw [if_neg hd] at hfp; cases hfp

/-- Both capture groups of the leftmost search are tokens. -/
theorem searchTimeMatch_shape :
    ∀ {s t1 t2 : List Char}, searchTimeMatch s = some (t1, t2) →
      IsToken t1 ∧ IsToken t2 := by
  intro s
  induction s with
  | nil =>
    intro t1 t2 h
    rw [searchTimeMatch] at h
    cases hm : matchAt [] with
    | some p => rw [hm] at h; injection h with h; subst h; exact matchAt_shape hm
    | none => rw [hm] at h; cases h
  | cons c cs ih =>
    intro t1 t2 h
    rw [searchTimeMatch] at h
    cases hm : matchAt (c :: cs) with
    | some p =>
      rw [hm] at h
      injection h with h
      subst h
      exact matchAt_shape hm
    | none =>
      rw [hm] at h
      exact ih h

/-- Claim C10 (amended): whenever the day prefix matches but no substring
matches the time-range shape (as on "MWF 9am - 10am", where whitespace
separates the first time token from the hyphen), parsing fails with the
error citing "times not found". -/
theorem claim_C10_amended (s run : List Char) (hday : dayScan s = some run)
    (hmatch : searchTimeMatch s = none) :
    parseRecurrenceString s =
      Except.error ("Invalid recurrence string: times not found") := by
  simp only [parseRecurrenceString, hday,
    mapDays_ok run
      (by rw [(dayScan_some hday).1]; exact fun c hc => List.mem_takeWhile_imp hc),
    hmatch]

/-- Claim C10 witness: the concrete input "MWF 9am - 10am" — day prefix
matches, the spaced range does not — fails citing "times not found". -/
theorem claim_C10_amended_witness :
    parseRecurrenceString (("MWF 9am - 10am").toList) =
      Except.error ("Invalid recurrence string: times not found") :=
  claim_C10_amended (("MWF 9am - 10am").toList) (("MWF").toList)
    (by decide) (by decide)

theorem dig_lower {c : Char} (h : isDig c = true) : jsToLower c = c :=
  (isDig_facts h).2.1

theorem dig_ws {c : Char} (h : isDig c = true) : jsWhitespace c = false :=
  (isDig_facts h).1

theorem dig_ne_colon {c : Char} (h : isDig c = true) : ¬(c = ':') :=
  (isDig_facts h).2.2.1

theorem dig_ne_a {c : Char} (h : isDig c = true) : ¬(c = 'a') :=
  (isDig_facts h).2.2.2.1

theorem dig_ne_p {c : Char} (h : isDig c = true) : ¬(c = 'p') :=
  (isDig_facts h).2.2.2.2.1

theorem dig_ne_m {c : Char} (h : isDig c = true) : ¬(c = 'm') :=
  (isDig_facts h).2.2.2.2.2.1

theorem dig_ne_dash {c : Char} (h : isDig c = true) : ¬(c = '-') :=
  (isDig_facts h).2.2.2.2.2.2.1

theorem dig_ne_plus {c : Char} (h : isDig c = true) : ¬(c = '+') :=
  (isDig_facts h).2.2.2.2.2.2.2.1

theorem wsc_lower {c : Char} (h : jsWhitespace c = true) : jsToLower c = c :=
  (ws_facts h).2.1

theorem wsc_dig {c : Char} (h : jsWhitespace c = true) : isDig c = false :=
  (ws_facts h).1

theorem wsc_ne_colon {c : Char} (h : jsWhitespace c = true) : ¬(c = ':') :=
  (ws_facts h).2.2.1

theorem wsc_ne_a {c : Char} (h : jsWhitespace c = true) : ¬(c = 'a') :=
  (ws_facts h).2.2.2.1

theorem wsc_ne_p {c : Char} (h : jsWhitespace c = true) : ¬(c = 'p') :=
  (ws_facts h).2.2.2.2.1

theorem wsc_ne_m {c : Char} (h : jsWhitespace c = true) : ¬(c = 'm') :=
  (ws_facts h).2.2.2.2.2

theorem lower_colon : jsToLower ':' = ':' := by decide

theorem digitsVal_nil : digitsVal [] = 0 := rfl

theorem markA_lower {a : Char} (h : isMarkA a = true) : jsToLower a = 'a' := by
  simp only [isMarkA, Bool.or_eq_true, decide_eq_true_eq] at h
  rcases h with h | h <;> subst h <;> decide

theorem markA_ws {a : Char} (h : isMarkA a = true) : jsWhitespace a = false := by
  simp only [isMarkA, Bool.or_eq_true, decide_eq_true_eq] at h
  rcases h with h | h <;> subst h <;> decide

theorem markA_dig {a : Char} (h : isMarkA a = true) : isDig a = false := by
  simp only [isMarkA, Bool.or_eq_true, decide_eq_true_eq] at h
  rcases h with h | h <;> subst h <;> decide

theorem markA_ne_colon {a : Char} (h : isMarkA a = true) : ¬(a = ':') := by
  simp only [isMarkA, Bool.or_eq_true, decide_eq_true_eq] at h
  rcases h with h | h <;> subst h <;> decide

theorem markA_not_p {a : Char} (h : isMarkA a = true) : isMarkP a = false := by
  simp only [isMarkA, Bool.or_eq_true, decide_eq_true_eq] at h
  rcases h with h | h <;> subst h <;> decide

theorem markP_lower {a : Char} (h : isMarkP a = true) : jsToLower a = 'p' := by
  simp only [isMarkP, Bool.or_eq_true, decide_eq_true_eq] at h
  rcases h with h | h <;> subst h <;> decide

theorem markP_ws {a : Char} (h : isMarkP a = true) : jsWhitespace a = false := by
  simp only [isMarkP, Bool.or_eq_true, decide_eq_true_eq] at h
  rcases h with h | h <;> subst h <;> decide

theorem markP_dig {a : Char} (h : isMarkP a = true) : isDig a = false := by
  simp only [isMarkP, Bool.or_eq_true, decide_eq_true_eq] at h
  rcases h with h | h <;> subst h <;> decide

theorem markP_ne_colon {a : Char} (h : isMarkP a = true) : ¬(a = ':') := by
  simp only [isMarkP, Bool.or_eq_true, decide_eq_true_eq] at h
  rcases h with h | h <;> subst h <;> decide

theorem markM_lower {m : Char} (h : isMarkM m = true) : jsToLower m = 'm' := by
  simp only [isMarkM, Bool.or_eq_true, decide_eq_true_eq] at h
  rcases h with h | h <;> subst h <;> decide

theorem markM_ws {m : Char} (h : isMarkM m = true) : jsWhitespace m = false := by
  simp only [isMarkM, Bool.or_eq_true, decide_eq_true_eq] at h
  rcases h with h | h <;> subst h <;> decide

theorem markM_dig {m : Char} (h : isMarkM m = true) : isDig m = false := by
  simp only [isMarkM, Bool.or_eq_true, decide_eq_true_eq] at h
  rcases h with h | h <;> subst h <;> decide

theorem markM_ne_colon {m : Char} (h : isMarkM m = true) : ¬(m = ':') := by
  simp only [isMarkM, Bool.or_eq_true, decide_eq_true_eq] at h
  rcases h with h | h <;> subst h <;> decide

set_option maxHeartbeats 1600000 in
theorem parseTime_marker (ds co w : List Char) (a m : Char)
    (hds : IsDigits12 ds) (hco : IsColonOpt co) (hw : IsWsOpt w)
    (ha : isMarkA a = true ∨ isMarkP a = true) (hm : isMarkM m = true) :
    parseTime (ds ++ co ++ w ++ [a, m]) =
      ⟨some (if isMarkP a = true then
               (if (digitsVal ds : Int) < 12 then (digitsVal ds : Int) + 12
                else (digitsVal ds : Int))
             else (if (digitsVal ds : Int) = 12 then 0 else (digitsVal ds : Int))),
       some ((digitsVal (co.drop 1) : Int))⟩ := by
  rcases hds with ⟨d1, rfl, hd1⟩ | ⟨d1, d2, rfl, hd1, hd2⟩ <;>
    rcases hco with rfl | ⟨n1, n2, rfl, hn1, hn2⟩ <;>
    rcases hw with rfl | ⟨wc, rfl, hwc⟩ <;>
    rcases ha with ha | ha <;>
    · simp [parseTime, jsTrim, toLowerList, hasSub2, stripMarker, splitColon,
        jsParseInt, minutesFromParts, List.dropWhile, List.takeWhile,
        dig_lower, dig_ws, dig_ne_colon, dig_ne_a, dig_ne_p, dig_ne_m,
        dig_ne_dash, dig_ne_plus, wsc_lower, wsc_dig, wsc_ne_colon, wsc_ne_a,
        wsc_ne_p, wsc_ne_m, markA_lower, markA_ws, markA_dig, markA_ne_colon,
        markA_not_p, markP_lower, markP_ws, markP_dig, markP_ne_colon,
        markM_lower, markM_ws, markM_dig, markM_ne_colon, lower_colon, digitsVal_nil, *]
      split_ifs <;> simp_all

set_option maxHeartbeats 1600000 in
theorem parseTime_plain (ds co w : List Char)
    (hds : IsDigits12 ds) (hco : IsColonOpt co) (hw : IsWsOpt w) :
    parseTime (ds ++ co ++ w) =
      ⟨some ((digitsVal ds : Int)), some ((digitsVal (co.drop 1) : Int))⟩ := by
  rcases hds with ⟨d1, rfl, hd1⟩ | ⟨d1, d2, rfl, hd1, hd2⟩ <;>
    rcases hco with rfl | ⟨n1, n2, rfl, hn1, hn2⟩ <;>
    rcases hw with rfl | ⟨wc, rfl, hwc⟩ <;>
    · simp [parseTime, jsTrim, toLowerList, hasSub2, stripMarker, splitColon,
        jsParseInt, minutesFromParts, List.dropWhile, List.takeWhile,
        dig_lower, dig_ws, dig_ne_colon, dig_ne_a, dig_ne_p, dig_ne_m,
        dig_ne_dash, dig_ne_plus, wsc_lower, wsc_dig, wsc_ne_colon, wsc_ne_a,
        wsc_ne_p, wsc_ne_m, lower_colon, digitsVal_nil, *]

/-- One- and two-digit values are at most 99. -/
theorem digitsVal12_le99 {ds : List Char} (h : IsDigits12 ds) :
    digitsVal ds ≤ 99 := by
  rcases h with ⟨a, rfl, ha⟩ | ⟨a, b, rfl, ha, hb⟩
  · have := (isDig_facts ha).2.2.2.2.2.2.2.2.2.2
    simp [digitsVal]
    omega
  · have h1 := (isDig_facts ha).2.2.2.2.2.2.2.2.2.2
    have h2 := (isDig_facts hb).2.2.2.2.2.2.2.2.2.2
    simp [digitsVal]
    omega

/-- The minutes value read from the optional colon part is at most 99. -/
theorem digitsValColon_le99 {co : List Char} (h : IsColonOpt co) :
    digitsVal (co.drop 1) ≤ 99 := by
  rcases h with rfl | ⟨a, b, rfl, ha, hb⟩
  · simp [digitsVal]
  · have h1 := (isDig_facts ha).2.2.2.2.2.2.2.2.2.2
    have h2 := (isDig_facts hb).2.2.2.2.2.2.2.2.2.2
    simp [digitsVal]
    omega

/-- On any captured token, `parseTime` returns defined (non-NaN) hours and
minutes, both within [0, 99]. -/
theorem parseTime_token_bounds {t : List Char} (ht : IsToken t) :
    ∃ hh mm : Int, parseTime t = ⟨some hh, some mm⟩ ∧
      0 ≤ hh ∧ hh ≤ 99 ∧ 0 ≤ mm ∧ mm ≤ 99 := by
  rcases ht with ⟨ds, co, w, mk, rfl, hds, hco, hw, hmk⟩
  have hds99 : (digitsVal ds : Int) ≤ 99 := by
    have := digitsVal12_le99 hds
    omega
  have hco99 : (digitsVal (co.drop 1) : Int) ≤ 99 := by
    have := digitsValColon_le99 hco
    omega
  rcases hmk with rfl | ⟨a, m, rfl, ha, hm⟩
  · rw [List.append_nil, parseTime_plain ds co w hds hco hw]
    exact ⟨_, _, rfl, by omega, hds99, by omega, hco99⟩
  · rw [parseTime_marker ds co w a m hds hco hw ha hm]
    refine ⟨_, _, rfl, ?_, ?_, by omega, hco99⟩
    · split_ifs <;> omega
    · split_ifs <;> omega

/-- Claim C6: time normalization follows standard 12-hour semantics — on
every captured token carrying an am/pm marker the marker is stripped, the
token is split on ':' with minute defaulting to 0 when the colon part is
absent, hour gains 12 when the marker is pm and the hour is below 12, and
hour becomes 0 when the marker is am and the hour equals 12; in particular
"12am" gives hour 0, "12pm" hour 12, "1pm" hour 13, "9am" minute 0 and
"9:15am" minute 15. -/
theorem claim_C6 :
    (∀ (ds co w : List Char) (a m : Char), IsDigits12 ds → IsColonOpt co →
      IsWsOpt w → (isMarkA a = true ∨ isMarkP a = true) → isMarkM m = true →
      parseTime (ds ++ co ++ w ++ [a, m]) =
        ⟨some (if isMarkP a = true then
                 (if (digitsVal ds : Int) < 12 then (digitsVal ds : Int) + 12
                  else (digitsVal ds : Int))
               else (if (digitsVal ds : Int) = 12 then 0
                     else (digitsVal ds : Int))),
         some ((digitsVal (co.drop 1) : Int))⟩) ∧
    parseTime (("12am").toList) = ⟨some 0, some 0⟩ ∧
    parseTime (("12pm").toList) = ⟨some 12, some 0⟩ ∧
    parseTime (("1pm").toList) = ⟨some 13, some 0⟩ ∧
    parseTime (("9am").toList) = ⟨some 9, some 0⟩ ∧
    parseTime (("9:15am").toList) = ⟨some 9, some 15⟩ :=
  ⟨fun ds co w a m h1 h2 h3 h4 h5 => parseTime_marker ds co w a m h1 h2 h3 h4 h5,
   by decide, by decide, by decide, by decide, by decide⟩

/-- Claim C6 witness: the normalization formula instantiated at the token
"12am" (digits "12", no colon part, no whitespace, marker letters a/m). -/
theorem claim_C6_witness :
    parseTime (['1', '2'] ++ [] ++ [] ++ ['a', 'm']) =
      ⟨some (if isMarkP 'a' = true then
               (if (digitsVal ['1', '2'] : Int) < 12 then (digitsVal ['1', '2'] : Int) + 12
                else (digitsVal ['1', '2'] : Int))
             else (if (digitsVal ['1', '2'] : Int) = 12 then 0
                   else (digitsVal ['1', '2'] : Int))),
       some ((digitsVal (([] : List Char).drop 1) : Int))⟩ :=
  claim_C6.1 ['1', '2'] [] [] 'a' 'm'
    (Or.inr ⟨'1', '2', rfl, rfl, rfl⟩) (Or.inl rfl) (Or.inl rfl)
    (Or.inl rfl) rfl

/-- Claim C7: a captured token with no am/pm marker is parsed as bare
24-hour digits with no hour adjustment, and in particular in
"M 11-12:15pm" — where only the second token carries a marker — the start
time is hour 11, not 23. -/
theorem claim_C7 :
    (∀ (ds co w : List Char), IsDigits12 ds → IsColonOpt co → IsWsOpt w →
      parseTime (ds ++ co ++ w) =
        ⟨some ((digitsVal ds : Int)), some ((digitsVal (co.drop 1) : Int))⟩) ∧
    parseRecurrenceString (("M 11-12:15pm").toList) =
      Except.ok ⟨[['M', 'O']], ⟨some 11, some 0⟩, ⟨some 12, some 15⟩⟩ ∧
    ¬ parseRecurrenceString (("M 11-12:15pm").toList) =
      Except.ok ⟨[['M', 'O']], ⟨some 23, some 0⟩, ⟨some 12, some 15⟩⟩ :=
  ⟨parseTime_plain, by decide, by decide⟩

/-- Claim C7 witness: the bare-24-hour formula instantiated at the token
"11" (digits "11", no colon part, no whitespace). -/
theorem claim_C7_witness :
    parseTime (['1', '1'] ++ [] ++ []) =
      ⟨some ((digitsVal ['1', '1'] : Int)),
       some ((digitsVal (([] : List Char).drop 1) : Int))⟩ :=
  claim_C7.1 ['1', '1'] [] []
    (Or.inr ⟨'1', '1', rfl, rfl, rfl⟩) (Or.inl rfl) (Or.inl rfl)

/-- Claim C3 (amended): for every recurrence string on which the parser
succeeds, both times are defined (non-NaN) with hour and minute each in
[0, 99] — two-digit tokens such as "99:99" pass through unvalidated, so the
claimed [0,23] and [0,59] ranges do not hold, but nothing wider than two
digits (plus the pm shift capped below 12) can be produced. -/
theorem claim_C3_amended (s : List Char) (pat : RecurrencePattern)
    (h : parseRecurrenceString s = Except.ok pat) :
    ∃ h1 m1 h2 m2 : Int,
      pat.startTime = ⟨some h1, some m1⟩ ∧ pat.endTime = ⟨some h2, some m2⟩ ∧
      0 ≤ h1 ∧ h1 ≤ 99 ∧ 0 ≤ m1 ∧ m1 ≤ 99 ∧
      0 ≤ h2 ∧ h2 ≤ 99 ∧ 0 ≤ m2 ∧ m2 ≤ 99 := by
  rcases (parse_ok_struct h).2 with ⟨t1, t2, hs, hst, het⟩
  obtain ⟨sh1, sh2⟩ := searchTimeMatch_shape hs
  rcases parseTime_token_bounds sh1 with ⟨a1, b1, he1, hb1, hb2, hb3, hb4⟩
  rcases parseTime_token_bounds sh2 with ⟨a2, b2, he2, hc1, hc2, hc3, hc4⟩
  exact ⟨a1, b1, a2, b2, by rw [hst, he1], by rw [het, he2],
    hb1, hb2, hb3, hb4, hc1, hc2, hc3, hc4⟩

/-- Claim C3 witness: the bounds instantiated at "M 99:99-1", the input
whose start time is 99:99. -/
theorem claim_C3_amended_witness :
    ∃ h1 m1 h2 m2 : Int,
      (RecurrencePattern.mk [['M', 'O']] ⟨some 99, some 99⟩ ⟨some 1, some 0⟩).startTime
        = ⟨some h1, some m1⟩ ∧
      (RecurrencePattern.mk [['M', 'O']] ⟨some 99, some 99⟩ ⟨some 1, some 0⟩).endTime
        = ⟨some h2, some m2⟩ ∧
      0 ≤ h1 ∧ h1 ≤ 99 ∧ 0 ≤ m1 ∧ m1 ≤ 99 ∧
      0 ≤ h2 ∧ h2 ≤ 99 ∧ 0 ≤ m2 ∧ m2 ≤ 99 :=
  claim_C3_amended (("M 99:99-1").toList) _ (by decide)

/-- Claim C8, counterexample: at the maximum valid time value
8640000000000000 ms (275760-09-13T00:00:00Z) with recurrence "M 1-2" the
parser succeeds, but `setHours` pushes the event start past the ECMAScript
time range, TimeClip makes it an invalid date, and `parseTo8984` throws
RangeError("Invalid time value") — so the formatters do not fail exactly
when the parser fails. -/
theorem claim_C8_counterexample :
    parseRecurrenceString (("M 1-2").toList) =
      Except.ok ⟨[['M', 'O']], ⟨some 1, some 0⟩, ⟨some 2, some 0⟩⟩ ∧
    parseTo8984 0 8640000000000000 0 (("M 1-2").toList) =
      Except.error ("Invalid time value") ∧
    ¬ isOkB (parseTo8984 0 8640000000000000 0 (("M 1-2").toList)) =
        isOkB (parseRecurrenceString (("M 1-2").toList)) := by
  refine ⟨by decide, by decide, by decide⟩

/-- Claim C8 (amended): `parseTo5545` succeeds exactly when the parser
succeeds; on parser failure both formatters propagate the parser's error
message unchanged and perform no other validation (period ordering
included).  `parseTo8984` adds exactly one failure of its own: on a
successful parse its times are always defined (never NaN), and it throws
RangeError("Invalid time value") precisely when anchoring a parsed time to
periodStart's local calendar date overflows the ECMAScript time range
(TimeClip yields an invalid date), succeeding otherwise. -/
theorem claim_C8_amended (tz startMs endMs : Int) (rec : List Char) :
    isOkB (parseTo5545 tz startMs endMs rec) = isOkB (parseRecurrenceString rec) ∧
    (∀ msg, parseRecurrenceString rec = Except.error msg →
      parseTo5545 tz startMs endMs rec = Except.error msg ∧
      parseTo8984 tz startMs endMs rec = Except.error msg) ∧
    (∀ pat, parseRecurrenceString rec = Except.ok pat →
      (∃ h1 m1 h2 m2 : Int,
        pat.startTime = ⟨some h1, some m1⟩ ∧ pat.endTime = ⟨some h2, some m2⟩) ∧
      ((setTime startMs tz pat.startTime.hours pat.startTime.minutes = none ∨
        setTime startMs tz pat.endTime.hours pat.endTime.minutes = none) →
        parseTo8984 tz startMs endMs rec = Except.error ("Invalid time value")) ∧
      ((¬ setTime startMs tz pat.startTime.hours pat.startTime.minutes = none ∧
        ¬ setTime startMs tz pat.endTime.hours pat.endTime.minutes = none) →
        isOkB (parseTo8984 tz startMs endMs rec) = true)) := by
  cases hp : parseRecurrenceString rec with
  | error e =>
    refine ⟨?_, ?_, ?_⟩
    · rw [show parseTo5545 tz startMs endMs rec = Except.error e from by
        simp only [parseTo5545, hp]]
      simp only [isOkB]
    · intro msg hmsg
      injection hmsg with hmsg
      subst hmsg
      exact ⟨by simp only [parseTo5545, hp], by simp only [parseTo8984, hp]⟩
    · intro pat hpat
      cases hpat
  | ok pat =>
    refine ⟨?_, ?_, ?_⟩
    · simp only [parseTo5545, hp, isOkB]
    · intro msg hmsg
      cases hmsg
    · intro pat' hpat
      injection hpat with hpat
      subst hpat
      have hex : ∃ h1 m1 h2 m2 : Int,
          pat.startTime = ⟨some h1, some m1⟩ ∧ pat.endTime = ⟨some h2, some m2⟩ := by
        rcases (parse_ok_struct hp).2 with ⟨t1, t2, hs, hst, het⟩
        obtain ⟨sh1, sh2⟩ := searchTimeMatch_shape hs
        rcases parseTime_token_bounds sh1 with ⟨a1, b1, he1, -⟩
        rcases parseTime_token_bounds sh2 with ⟨a2, b2, he2, -⟩
        exact ⟨a1, b1, a2, b2, by rw [hst, he1], by rw [het, he2]⟩
      refine ⟨hex, ?_, ?_⟩
      · intro hnone
        cases hs1 : setTime startMs tz pat.startTime.hours pat.startTime.minutes with
        | none =>
          cases hs2 : setTime startMs tz pat.endTime.hours pat.endTime.minutes with
          | none => simp only [parseTo8984, hp, hs1, hs2, toISOString]
          | some v2 => simp only [parseTo8984, hp, hs1, hs2, toISOString]
        | some v1 =>
          cases hs2 : setTime startMs tz pat.endTime.hours pat.endTime.minutes with
          | none => simp only [parseTo8984, hp, hs1, hs2, toISOString]
          | some v2 =>
            rcases hnone with h | h
            · rw [hs1] at h; cases h
            · rw [hs2] at h; cases h
      · rintro ⟨hn1, hn2⟩
        cases hs1 : setTime startMs tz pat.startTime.hours pat.startTime.minutes with
        | none => exact absurd hs1 hn1
        | some v1 =>
          cases hs2 : setTime startMs tz pat.endTime.hours pat.endTime.minutes with
          | none => exact absurd hs2 hn2
          | some v2 => simp only [parseTo8984, hp, hs1, hs2, toISOString, isOkB]

/-- Claim C8 witness: the days-not-found error propagates verbatim through
`parseTo5545` on "x"; the overflow branch fires at the maximum time value
with "M 1-2"; and `parseTo8984` succeeds on the in-range 2025 scenario. -/
theorem claim_C8_amended_witness :
    parseTo5545 0 0 0 (("x").toList) =
      Except.error ("Invalid recurrence string: days not found") ∧
    parseTo8984 0 8640000000000000 0 (("M 1-2").toList) =
      Except.error ("Invalid time value") ∧
    isOkB (parseTo8984 0 (mkUtcMs 2025 3 10 0 0 0) (mkUtcMs 2025 6 10 23 59 59)
      (("TR 11am-12:15pm").toList)) = true :=
  ⟨((claim_C8_amended 0 0 0 (("x").toList)).2.1 _ (by decide)).1,
   ((claim_C8_amended 0 8640000000000000 0 (("M 1-2").toList)).2.2
      ⟨[['M', 'O']], ⟨some 1, some 0⟩, ⟨some 2, some 0⟩⟩ (by decide)).2.1
      (Or.inl (by decide)),
   ((claim_C8_amended 0 (mkUtcMs 2025 3 10 0 0 0) (mkUtcMs 2025 6 10 23 59 59)
      (("TR 11am-12:15pm").toList)).2.2
      ⟨[['T', 'U'], ['T', 'H']], ⟨some 11, some 0⟩, ⟨some 12, some 15⟩⟩
      (by decide)).2.2 ⟨by decide, by decide⟩⟩

end SchedulingRender
